import Mathlib

/-!
Shallow embedding of the sweetspotvm local scheduler core
(`src/schedulerlocal/...`) together with proofs about it.

Conventions:
* Python `int` is modelled by `ℤ` (or `ℕ` for values that are counts by
  construction), Python `float` by `ℚ` (the float operations exercised by the
  embedded code are exact on the values considered: comparisons, `+`, `*`, `/`,
  `math.ceil`, `math.floor`).
* Code that can raise is modelled with `Except PyError`.
* Mutating methods are modelled by explicit state passing: a method of class
  `C` mutating `self` becomes a function `CState → ... → CState` (possibly
  inside `Except`, possibly paired with a return value or a list of emitted
  hypervisor events).
* External collaborators (the libvirt hypervisor, the vowpalwabbit
  classifier) are abstracted as function parameters; everything else follows
  the Python sources line by line.
-/

/-- Kinds of Python exceptions raised by the embedded code. -/
inductive PyError where
  | valueError
  | typeError
  | keyError
  | nameError
  | indexError
  | zeroDivisionError
deriving DecidableEq, Repr

/-! ## DomainEntity (`src/schedulerlocal/domain/domainentity.py`) -/

/-- Model of `DomainEntity`: the VM descriptor.  `cpuPin` models the
`cpu_pin` attribute (a list, one entry per vCPU, of host-wide boolean
pin vectors); `none` is Python `None`.  Fields not relevant to the claims
(`cpu_ratio`, `qcow2`, CPU-time counters) are omitted. -/
structure DomainEntity where
  name : String
  uuid : Option String
  cpu : ℕ
  mem : ℕ
  cpuPin : Option (List (List Bool)) := none
  beingDestroyed : Bool := false
deriving DecidableEq, Repr

/-- Model of `DomainEntity.is_deployed` (line 62): `self.uuid != None`. -/
def DomainEntity.isDeployed (v : DomainEntity) : Bool :=
  v.uuid.isSome

/-- Model of `DomainEntity.__eq__` (domainentity.py lines 151-156) between two
distinct live objects of class `DomainEntity` (so the `isinstance` test is
true and the `id(self) is id(other)` shortcut, which can only add `True` for
the very same object, is false): equal when the uuids are equal, or when
name, cpu and mem all agree. -/
def DomainEntity.pyEq (a b : DomainEntity) : Bool :=
  if a.uuid = b.uuid then true
  else if a.name = b.name ∧ a.cpu = b.cpu ∧ a.mem = b.mem then true
  else false

/-- Model of the Python membership test `vm in consumer_list`, which compares
with `DomainEntity.__eq__`. -/
def pyElem (v : DomainEntity) (l : List DomainEntity) : Bool :=
  l.any (fun c => DomainEntity.pyEq c v)

/-- Model of `DomainEntity.set_cpu_pin` (lines 93-97):
`self.cpu_pin = [template_pin for vcpu in range(self.get_cpu())]`. -/
def DomainEntity.setCpuPin (v : DomainEntity) (templatePin : List Bool) : DomainEntity :=
  { v with cpuPin := some (List.replicate v.cpu templatePin) }

/-! ## Static oversubscription policy
(`src/schedulerlocal/subset/subsetoversubscription.py`, class
`SubsetOversubscriptionStatic`)

The Python policy object holds a back-pointer to its subset and reads
`subset.get_capacity()`, `subset.count_consumer()`, `subset.get_allocation()`,
`subset.get_vm_allocation(vm)` and `subset.get_max_consumer_allocation()`.
`get_capacity` and `get_vm_allocation` are abstract methods of `Subset`
(capacity and per-VM allocation are resource dependent), so the embedded
policy functions take the capacity and the per-VM allocation function as
explicit parameters, and the consumer list of the subset directly. -/

/-- Model of `SubsetOversubscriptionStatic.__get_effective_ratio`
(subsetoversubscription.py lines 179-197), with the consumer count passed in
for `self.subset.count_consumer()`. -/
def getEffectiveRatio (ratio : ℚ) (criticalSize : ℤ) (consumerCount : ℤ)
    (withNewVm : Bool) : ℚ :=
  let count := if withNewVm then consumerCount + 1 else consumerCount
  if count < criticalSize then 1 else ratio

/-- Model of `Subset.get_allocation` (subset.py lines 237-253): sum of
`get_vm_allocation` over the consumer list, accumulated left to right. -/
def getAllocation (vmAlloc : DomainEntity → ℕ) (consumers : List DomainEntity) : ℤ :=
  consumers.foldl (fun acc c => acc + (vmAlloc c : ℤ)) 0

/-- Model of `Subset.get_max_consumer_allocation` (subset.py lines 272-285). -/
def getMaxConsumerAllocation (vmAlloc : DomainEntity → ℕ)
    (consumers : List DomainEntity) : ℤ :=
  consumers.foldl (fun m c => if m < (vmAlloc c : ℤ) then (vmAlloc c : ℤ) else m) 0

/-- Model of `SubsetOversubscriptionStatic.get_oversubscribed_quantity`
(lines 96-112): `quantity * self.__get_effective_ratio(with_new_vm)`. -/
def getOversubscribedQuantity (ratio : ℚ) (criticalSize : ℤ) (consumerCount : ℤ)
    (quantity : ℤ) (withNewVm : Bool) : ℚ :=
  (quantity : ℚ) * getEffectiveRatio ratio criticalSize consumerCount withNewVm

/-- Model of `SubsetOversubscriptionStatic.get_available` (lines 80-94):
oversubscribed capacity minus the subset allocation. -/
def getAvailable (ratio : ℚ) (criticalSize : ℤ) (capacity : ℤ)
    (vmAlloc : DomainEntity → ℕ) (consumers : List DomainEntity)
    (withNewVm : Bool) : ℚ :=
  getOversubscribedQuantity ratio criticalSize (consumers.length : ℤ) capacity withNewVm
    - (getAllocation vmAlloc consumers : ℚ)

/-- Model of `SubsetOversubscriptionStatic.unused_resources_count`
(lines 114-134).  Python float division by `0.0` raises
`ZeroDivisionError`, hence the error case for a zero effective ratio. -/
def unusedResourcesCount (ratio : ℚ) (criticalSize : ℤ) (capacity : ℤ)
    (vmAlloc : DomainEntity → ℕ) (consumers : List DomainEntity) : Except PyError ℤ :=
  let effectiveRatio := getEffectiveRatio ratio criticalSize (consumers.length : ℤ) false
  if effectiveRatio = 0 then Except.error PyError.zeroDivisionError
  else
    let availableOversubscribed := getAvailable ratio criticalSize capacity vmAlloc consumers false
    let unusedCpu : ℤ := ⌊availableOversubscribed / effectiveRatio⌋
    let usedCpu := capacity - unusedCpu
    let maxAlloc := getMaxConsumerAllocation vmAlloc consumers
    if usedCpu < maxAlloc then Except.ok (max 0 ⌊(capacity : ℚ) - (maxAlloc : ℚ)⌋)
    else Except.ok unusedCpu

/-! ## Subset (`src/schedulerlocal/subset/subset.py`) -/

/-- Model of `Subset.add_consumer` (subset.py lines 161-171): raises
`ValueError` when the consumer is already present (under `DomainEntity`
equality), otherwise appends it. -/
def addConsumer (consumers : List DomainEntity) (c : DomainEntity) :
    Except PyError (List DomainEntity) :=
  if pyElem c consumers then Except.error PyError.valueError
  else Except.ok (consumers ++ [c])

/-- Model of `Subset.deploy` (subset.py lines 360-369), generic over the
resource-dependent capacity and per-VM allocation.  Returns the updated
consumer list and the success flag. -/
def subsetDeploy (ratio : ℚ) (criticalSize : ℤ) (capacity : ℤ)
    (vmAlloc : DomainEntity → ℕ) (consumers : List DomainEntity)
    (vm : DomainEntity) : Except PyError (List DomainEntity × Bool) :=
  let availableOversubscribed := getAvailable ratio criticalSize capacity vmAlloc consumers true
  if availableOversubscribed < (vmAlloc vm : ℚ) then Except.ok (consumers, false)
  else
    match addConsumer consumers vm with
    | Except.error e => Except.error e
    | Except.ok consumers' => Except.ok (consumers', true)

/-! ## CPU subset (`CpuSubset` in subset.py) with pinning and counters -/

/-- Model of one `ServerCpu` object as owned by a `CpuSubset`'s `res_list`:
its id plus its `CpuTime` counters (`none` when `clear_time` ran,
mirroring `has_time`/`clear_time` of cpuset.py lines 124-154). -/
structure CpuRes where
  cpuId : ℕ
  idleNotIdle : Option (ℤ × ℤ)
deriving DecidableEq, Repr

/-- State of a `CpuSubset` (subset.py lines 603-724): resources, consumers,
its static oversubscription policy parameters (`ratio`, critical size from
the `OVSB_CRITICAL_SIZE` environment), the host CPU count `cpu_count` and
the `offline` flag. -/
structure CpuSubsetSt where
  resList : List CpuRes
  consumerList : List DomainEntity
  ratio : ℚ
  criticalSize : ℤ
  cpuCount : ℕ
  offline : Bool
deriving Repr

/-- Model of `LibvirtConnector.build_cpu_pinning` (libvirtconnector.py lines
163-181): a boolean vector of length `host_config`, true exactly at the cpu
ids of `cpu_list`.  Python raises `IndexError` when a cpu id is out of
range, modelled by the error case. -/
def buildCpuPinning (cpuIds : List ℕ) (hostConfig : ℕ) : Except PyError (List Bool) :=
  if cpuIds.all (fun c => c < hostConfig) then
    Except.ok (cpuIds.foldl (fun t c => t.set c true) (List.replicate hostConfig false))
  else Except.error PyError.indexError

/-- Model of `CpuSubset.sync_pinning` (subset.py lines 702-709): rebuild the
pin template from the subset resources, apply it to every consumer with
`set_cpu_pin`, and call `connector.update_cpu_pinning` on every deployed
consumer when not offline.  The hypervisor calls are modelled as the
returned list of consumer names, in call order. -/
def syncPinning (s : CpuSubsetSt) : Except PyError (CpuSubsetSt × List String) :=
  match buildCpuPinning (s.resList.map (fun r => r.cpuId)) s.cpuCount with
  | Except.error e => Except.error e
  | Except.ok templatePin =>
    let consumers := s.consumerList.map (fun c => c.setCpuPin templatePin)
    let events :=
      if s.offline then []
      else (consumers.filter (fun c => c.isDeployed)).map (fun c => c.name)
    Except.ok ({ s with consumerList := consumers }, events)

/-- Model of `CpuTime.clear_time` applied to every resource of the subset,
as done by `CpuSubset.deploy` (subset.py line 699). -/
def clearTimes (s : CpuSubsetSt) : CpuSubsetSt :=
  { s with resList := s.resList.map (fun r => { r with idleNotIdle := none }) }

/-- Model of `CpuSubset.deploy` (subset.py lines 685-700): run the base
`Subset.deploy` (capacity is `count_res()`, allocation is `vm.get_cpu()`),
then unconditionally `sync_pinning()` and clear the CPU-time counters of
every resource, and finally return the success flag of the base deploy. -/
def cpuSubsetDeploy (s : CpuSubsetSt) (vm : DomainEntity) :
    Except PyError (CpuSubsetSt × Bool × List String) :=
  match subsetDeploy s.ratio s.criticalSize (s.resList.length : ℤ)
      (fun v => v.cpu) s.consumerList vm with
  | Except.error e => Except.error e
  | Except.ok (consumers', success) =>
    match syncPinning { s with consumerList := consumers' } with
    | Except.error e => Except.error e
    | Except.ok (s2, events) => Except.ok (clearTimes s2, success, events)

/-! ## CPU distances (`src/schedulerlocal/node/cpuset.py`) -/

/-- Model of a `ServerCpu` for the distance computation: its id, numa node,
and the `cache_level` dict, modelled as its (insertion-ordered) list of
`(cache level key, cache id)` pairs.  Fields irrelevant to the distance
computation (`sib_smt`, `sib_cpu`, `max_freq`, `cpu_time`) are omitted. -/
structure ServerCpu where
  cpuId : ℕ
  numaNode : ℕ
  cacheLevel : List (ℕ × ℕ)
deriving DecidableEq, Repr

/-- Lookup in the model of a Python dict represented as its insertion-ordered
association list: the value of the first (hence, keys being unique in a
dict, the only) pair with the given key. -/
def dictLookup (l : List (ℕ × ℕ)) (key : ℕ) : Option ℕ :=
  (l.find? (fun p => p.1 = key)).map (fun p => p.2)

/-- Loop of `ServerCpu.compute_distance_to_cpu` (cpuset.py lines 59-71):
walk `self`'s cache levels in dict order, adding the step 10 at each level,
returning at the first level whose cache id matches the other cpu's cache id
at the same key (`KeyError` when the other dict lacks the key); when no level
matched, add the numa distance between the two numa nodes. -/
def computeDistanceGo (other : ServerCpu) (numaDistance : ℕ → ℕ → ℤ)
    (selfNuma : ℕ) : List (ℕ × ℕ) → ℤ → Except PyError ℤ
  | [], dist => Except.ok (dist + numaDistance selfNuma other.numaNode)
  | (key, cacheId) :: rest, dist =>
    match dictLookup other.cacheLevel key with
    | none => Except.error PyError.keyError
    | some otherId =>
      if cacheId = otherId then Except.ok (dist + 10)
      else computeDistanceGo other numaDistance selfNuma rest (dist + 10)

/-- Model of `ServerCpu.compute_distance_to_cpu` (cpuset.py lines 37-71).
The numa distance dict of dicts is modelled as a total function (the claims
presume a complete numa matrix). -/
def computeDistanceToCpu (a b : ServerCpu) (numaDistance : ℕ → ℕ → ℤ) :
    Except PyError ℤ :=
  if a.cpuId = b.cpuId then Except.error PyError.valueError
  else if a.cacheLevel.length ≠ b.cacheLevel.length then Except.error PyError.valueError
  else computeDistanceGo b numaDistance a.numaNode a.cacheLevel 0

/-- Stable insertion of a keyed pair into a list sorted ascending by the `ℤ`
component: the new element goes after every element with a key less than or
equal to its own. -/
def sortedInsert (x : ℕ × ℤ) : List (ℕ × ℤ) → List (ℕ × ℤ)
  | [] => [x]
  | y :: ys => if y.2 ≤ x.2 then y :: sortedInsert x ys else x :: y :: ys

/-- Model of Python `sorted(items, key=lambda item: item[1])`: a stable sort,
ascending by the second component.  (Any stable sort computes the same
output list as CPython's, so a stable insertion sort is a faithful model.) -/
def sortByValue (l : List (ℕ × ℤ)) : List (ℕ × ℤ) :=
  l.foldl (fun acc x => sortedInsert x acc) []

/-- Model of a Python `for` loop building a list, where the body can raise:
apply `f` to each element in order, stopping at the first raised error. -/
def mapE {α β : Type} (f : α → Except PyError β) : List α → Except PyError (List β)
  | [] => Except.ok []
  | a :: l =>
    match f a with
    | Except.error e => Except.error e
    | Except.ok b =>
      match mapE f l with
      | Except.error e => Except.error e
      | Except.ok bs => Except.ok (b :: bs)

/-- Body of the `build_distances` loop for one cpu (cpuset.py lines 211-218):
distances from `cpu` to every other cpu of the set, reordered ascending
(closest first).  `others_cpu.remove(cpu)` removes the first occurrence of
`cpu` itself from a copy of the list. -/
def buildDistancesFor (cpuList : List ServerCpu) (numaDistance : ℕ → ℕ → ℤ)
    (cpu : ServerCpu) : Except PyError (List (ℕ × ℤ)) :=
  match mapE
      (fun o => (computeDistanceToCpu cpu o numaDistance).map (fun d => (o.cpuId, d)))
      (cpuList.erase cpu) with
  | Except.error e => Except.error e
  | Except.ok l => Except.ok (sortByValue l)

/-- Model of `ServerCpuSet.build_distances` (cpuset.py lines 203-219): the
per-cpu association `cpu_id ↦ ordered distance mapping`. -/
def buildDistances (cpuList : List ServerCpu) (numaDistance : ℕ → ℕ → ℤ) :
    Except PyError (List (ℕ × List (ℕ × ℤ))) :=
  mapE (fun cpu =>
    (buildDistancesFor cpuList numaDistance cpu).map (fun l => (cpu.cpuId, l))) cpuList

/-- Position (starting at 0) of the first cache level at which the two zipped
cache hierarchies share a cache id; follows the claim's wording of the
distance rule, to be compared against the source-derived
`computeDistanceToCpu`. -/
def firstSharedLevel : List ((ℕ × ℕ) × (ℕ × ℕ)) → Option ℕ
  | [] => none
  | (pa, pb) :: rest =>
    if pa.2 = pb.2 then some 0 else (firstSharedLevel rest).map (fun i => i + 1)

/-! ## Predictor (`src/schedulerlocal/predictor/predictor.py`) -/

/-- Model of `PredictorCsoaa.__generate_labels_with_costs` (predictor.py
lines 142-150) as the list of `(class, cost)` pairs whose textual
`class:cost` rendering, space separated, is the returned cost string:
for every class `c` in `1..resources_count`, `delta = |c - p|` with
`p = ceil(observed_peak)`, and the cost is `negative_penalty_start + delta`
when `c < p`, else `delta`, with `negative_penalty_start = N - p`. -/
def generateLabelsWithCosts (resourcesCount : ℤ) (observedPeak : ℚ) :
    List (ℤ × ℤ) :=
  let actualPeakRounded := ⌈observedPeak⌉
  let negativePenaltyStart := resourcesCount - actualPeakRounded
  (List.range resourcesCount.toNat).map (fun i =>
    let core : ℤ := (i : ℤ) + 1
    let delta := |core - actualPeakRounded|
    (core, if core < actualPeakRounded then negativePenaltyStart + delta else delta))

/-- The cost schedule as worded by the specification: `c - p` for an
overprovisioning class `c ≥ p`, `(N - p) + (p - c)` for an underprovisioning
class `c < p`.  Stated from the spec's words, to be compared against the
source-derived `generateLabelsWithCosts`. -/
def specCostSchedule (resourcesCount p c : ℤ) : ℤ :=
  if c < p then (resourcesCount - p) + (p - c) else c - p

/-- State of a `PredictorCsoaa` (predictor.py lines 40-55) relevant to
`predict`: the buffer timestamp and records, the last prediction and the
last allocation.  `μ` is the opaque state of the external model machinery
(`model_records`, `last_features` and the vowpalwabbit workspace), only
read and updated through the retraining oracle. -/
structure PredictorSt (μ : Type) where
  bufferTimestamp : Option ℤ
  bufferRecords : List ℚ
  lastPrediction : Option ℤ
  lastAllocation : ℤ
  modelSt : μ

/-- Model of `PredictorCsoaa.predict` (predictor.py lines 57-97).
`newModelOracle` abstracts `predict_on_new_model` (lines 99-125), whose value
comes from the external vowpalwabbit CSOAA classifier plus `np.std` (a real
square root): it consumes the opaque model state, the timestamp, the current
resources and the buffered metrics, and returns the raw prediction together
with the updated model state.  The `debug` CSV write (line 74) has no effect
on the returned value and is not modelled.  Returns the prediction and the
updated predictor state. -/
def predictStep {μ : Type} (newModelOracle : μ → ℤ → ℤ → List ℚ → ℚ × μ)
    (monitoringLearning : ℤ) (st : PredictorSt μ)
    (timestamp currentResources allocation : ℤ) (metric : ℚ) :
    ℤ × PredictorSt μ :=
  let bufferTimestamp := st.bufferTimestamp.getD timestamp
  let bufferRecords := st.bufferRecords ++ [metric]
  match st.lastPrediction with
  | none =>
    (currentResources,
      { bufferTimestamp := some bufferTimestamp, bufferRecords := bufferRecords,
        lastPrediction := some currentResources, lastAllocation := allocation,
        modelSt := st.modelSt })
  | some lastPred =>
    let safeguard := 0 < currentResources ∧ lastPred ≤ ⌈metric⌉
    let bufferFull := monitoringLearning ≤ timestamp - bufferTimestamp
    if safeguard then
      let pred0 := lastPred + 5
      let pred := if currentResources < pred0 then currentResources else pred0
      (pred,
        { bufferTimestamp := some bufferTimestamp, bufferRecords := bufferRecords,
          lastPrediction := some pred, lastAllocation := allocation,
          modelSt := st.modelSt })
    else if bufferFull then
      let rawPrediction := newModelOracle st.modelSt timestamp currentResources bufferRecords
      let pred0 := ⌈rawPrediction.1 + 8⌉
      let pred := if currentResources < pred0 then currentResources else pred0
      (pred,
        { bufferTimestamp := none, bufferRecords := [],
          lastPrediction := some pred, lastAllocation := allocation,
          modelSt := rawPrediction.2 })
    else
      (lastPred,
        { bufferTimestamp := some bufferTimestamp, bufferRecords := bufferRecords,
          lastPrediction := some lastPred, lastAllocation := allocation,
          modelSt := st.modelSt })

/-! ## Manager pool (`src/schedulerlocal/subset/subsetmanager.py`, class
`SubsetManagerPool`)

`SubsetManagerPool.deploy` (lines 981-1014) iterates its two subset managers
(`'cpu'` then `'mem'`, the dict insertion order) on each NUMA node.  The
managers are complex stateful objects; the pool-level claims quantify over
their behaviour, so a manager is modelled as a named pair of state
transformers on an abstract pool state `σ`: `deployOn numa vm` returns the
success flag and the new state, `removeFrom numa vm` the new state (the
pool's rollback ignores `remove`'s return value). -/
structure MgrModel (σ : Type) where
  resName : String
  deployOn : ℤ → DomainEntity → σ → Bool × σ
  removeFrom : ℤ → DomainEntity → σ → σ

/-- Inner loop of `SubsetManagerPool.deploy` (lines 996-1006) with the
`treated` accumulator: deploy on each manager in order; at the first failure
remove the vm from every already-treated manager, in order, and stop with
the failure reason; when all managers succeeded the reason is `None`
(line 1008). -/
def tryManagersGo {σ : Type} (numa : ℤ) (vm : DomainEntity) :
    List (MgrModel σ) → List (MgrModel σ) → σ → Bool × Option String × σ
  | [], _treated, st => (true, none, st)
  | m :: rest, treated, st =>
    let r := m.deployOn numa vm st
    if r.1 then tryManagersGo numa vm rest (treated ++ [m]) r.2
    else
      (false, some ("Not enough space on res " ++ m.resName),
        treated.foldl (fun s t => t.removeFrom numa vm s) r.2)

/-- One NUMA-node attempt of `SubsetManagerPool.deploy`: the inner manager
loop started with an empty `treated` list. -/
def tryNode {σ : Type} (mgrs : List (MgrModel σ)) (numa : ℤ) (vm : DomainEntity)
    (st : σ) : Bool × Option String × σ :=
  tryManagersGo numa vm mgrs [] st

/-- Outer loop of `SubsetManagerPool.deploy` (lines 995-1009) over the NUMA
ids of the cpu manager: try each node in order, stopping at the first
success; when every node failed, the last failure reason is kept.  With an
empty NUMA id list the Python `success` variable is never bound and line
1012 raises `NameError`. -/
def deployLoop {σ : Type} (mgrs : List (MgrModel σ)) (vm : DomainEntity) :
    List ℤ → σ → Except PyError (Bool × Option String × σ)
  | [], _st => Except.error PyError.nameError
  | numa :: rest, st =>
    let r := tryNode mgrs numa vm st
    if r.1 then Except.ok r
    else
      match rest with
      | [] => Except.ok r
      | numa' :: rest' => deployLoop mgrs vm (numa' :: rest') r.2.2

/-- Model of `SubsetManagerPool.deploy` (lines 981-1014).  `connCreate`
abstracts `self.connector.create_vm` (the libvirt call), returning the
`(success, reason)` pair; it is consulted only when placement succeeded for
a VM that is not yet realized and the pool is not offline. -/
def poolDeploy {σ : Type} (mgrs : List (MgrModel σ))
    (connCreate : DomainEntity → Bool × Option String) (vm : DomainEntity)
    (offline : Bool) (numaIds : List ℤ) (st : σ) :
    Except PyError (Bool × Option String × σ) :=
  match deployLoop mgrs vm numaIds st with
  | Except.error e => Except.error e
  | Except.ok (success, reason, st') =>
    if success ∧ ¬vm.isDeployed ∧ ¬offline then
      let r := connCreate vm
      Except.ok (r.1, r.2, st')
    else Except.ok (success, reason, st')

/-- State reached after deploying `vm` through a list of managers in
sequence, keeping every intermediate state change (also the failing
manager's). -/
def seqDeployState {σ : Type} (mgrs : List (MgrModel σ)) (numa : ℤ)
    (vm : DomainEntity) (st : σ) : σ :=
  mgrs.foldl (fun s m => (m.deployOn numa vm s).2) st

/-- Every manager of the list accepts the deploy when run in sequence from
the given state. -/
def seqAllOk {σ : Type} (numa : ℤ) (vm : DomainEntity) :
    List (MgrModel σ) → σ → Prop
  | [], _st => True
  | m :: rest, st =>
    (m.deployOn numa vm st).1 = true ∧ seqAllOk numa vm rest (m.deployOn numa vm st).2

/-- Every NUMA node of the list fails its (state-threaded) placement
attempt. -/
def allNodesFail {σ : Type} (mgrs : List (MgrModel σ)) (vm : DomainEntity) :
    List ℤ → σ → Prop
  | [], _st => True
  | numa :: rest, st =>
    (tryNode mgrs numa vm st).1 = false ∧
      allNodesFail mgrs vm rest (tryNode mgrs numa vm st).2.2

/-! ## `SubsetManagerPool.list_vm` (subsetmanager.py lines 1141-1153) -/

/-- View of the cpu `SubsetManager` as read by `SubsetManagerPool.list_vm`:
its NUMA id list and, per NUMA id, the subsets of the node's
`SubsetCollection` given by their consumer lists (the collection is a dict
`oversubscription id ↦ subset`). -/
structure CpuMgrView where
  numaIdList : List ℤ
  collections : ℤ → List (ℚ × List DomainEntity)

/-- Model of `SubsetCollection.get_consumers` (subset.py lines 587-598): the
names of the consumers of every subset of the collection, concatenated. -/
def collectionConsumers (col : List (ℚ × List DomainEntity)) : List String :=
  col.foldl (fun acc s => acc ++ s.2.map (fun vm => vm.name)) []

/-- Model of `SubsetManager.get_consumers` (subsetmanager.py lines 319-333)
for the cpu manager: the consumer names of the collection of one NUMA
node. -/
def mgrGetConsumers (mgr : CpuMgrView) (numa : ℤ) : List String :=
  collectionConsumers (mgr.collections numa)

/-- Model of `SubsetManagerPool.list_vm` (subsetmanager.py lines 1141-1153)
as written: the loop body is `consumers.extend[...]`, which subscripts the
bound method `list.extend` and raises `TypeError` on the first iteration;
only with an empty NUMA id list does the function return (the empty
list). -/
def poolListVm (mgr : CpuMgrView) : Except PyError (List String) :=
  match mgr.numaIdList with
  | [] => Except.ok []
  | _ :: _ => Except.error PyError.typeError

/-- Modelled from the spec: the intended semantics of
`SubsetManagerPool.list_vm` — the spec fixes the `extend[`/`extend(` slip and
makes "concatenate consumers across all NUMA collections" the contract. -/
def poolListVmIntended (mgr : CpuMgrView) : List String :=
  mgr.numaIdList.foldl (fun acc numa => acc ++ mgrGetConsumers mgr numa) []

/-! ## Concrete sample data used by witnesses and counterexamples -/

/-- A VM descriptor not yet realized by the hypervisor (`uuid = None`). -/
def vmA : DomainEntity :=
  { name := "a", uuid := none, cpu := 1, mem := 1000 }

/-- Another not-yet-realized VM descriptor; every field differs from
`vmA`'s. -/
def vmB : DomainEntity :=
  { name := "b", uuid := none, cpu := 2, mem := 2000 }

/-- A VM descriptor already realized by the hypervisor. -/
def vmD : DomainEntity :=
  { name := "d", uuid := some "u1", cpu := 2, mem := 4096 }

/-- A concrete core with two cache levels (keys 1 and 2). -/
def cpuX : ServerCpu :=
  { cpuId := 0, numaNode := 0, cacheLevel := [(1, 5), (2, 9)] }

/-- A concrete core sharing `cpuX`'s level-2 cache but not its level-1
cache. -/
def cpuY : ServerCpu :=
  { cpuId := 1, numaNode := 0, cacheLevel := [(1, 6), (2, 9)] }

/-- A concrete core with a single cache level keyed 1. -/
def cpuV : ServerCpu :=
  { cpuId := 0, numaNode := 0, cacheLevel := [(1, 5)] }

/-- A concrete core with a single cache level keyed 3: same cache depth as
`cpuV` but a different key set. -/
def cpuW : ServerCpu :=
  { cpuId := 1, numaNode := 0, cacheLevel := [(3, 7)] }

/-- A concrete one-core CPU subset, hosting the deployed VM `vmD`, with
ratio 1 and critical size 0, online, on a 2-core host. -/
def subC10 : CpuSubsetSt :=
  { resList := [{ cpuId := 0, idleNotIdle := some (5, 6) }],
    consumerList := [{ name := "d", uuid := some "u1", cpu := 2, mem := 4096 }],
    ratio := 1, criticalSize := 0, cpuCount := 2, offline := false }

/-- A pool manager (on a toy pool state `ℕ`) that always accepts a deploy. -/
def mgrOkA : MgrModel ℕ :=
  { resName := "cpu", deployOn := fun _ _ s => (true, s + 1),
    removeFrom := fun _ _ s => s + 100 }

/-- A second always-accepting pool manager. -/
def mgrOkB : MgrModel ℕ :=
  { resName := "mem", deployOn := fun _ _ s => (true, s + 1),
    removeFrom := fun _ _ s => s + 100 }

/-- A pool manager that always rejects a deploy. -/
def mgrFailB : MgrModel ℕ :=
  { resName := "mem", deployOn := fun _ _ s => (false, s + 7),
    removeFrom := fun _ _ s => s }

/-- A trivial retraining oracle for the predictor (the retraining branch is
not exercised where this oracle is used). -/
def zeroOracle : Unit → ℤ → ℤ → List ℚ → ℚ × Unit :=
  fun _ _ _ _ => (0, ())

/-- A concrete initial predictor state: one earlier prediction of 2 cores is
recorded, the observation buffer was started at timestamp 100. -/
def predStA : PredictorSt Unit :=
  { bufferTimestamp := some 100, bufferRecords := [], lastPrediction := some 2,
    lastAllocation := 0, modelSt := () }

/-- A fresh predictor state (no call has happened yet). -/
def predStFresh : PredictorSt Unit :=
  { bufferTimestamp := none, bufferRecords := [], lastPrediction := none,
    lastAllocation := 0, modelSt := () }

/-! ## Helper lemmas -/

/-- The left fold accumulating allocations equals the initial value plus the
sum of the mapped allocations. -/
theorem getAllocation_foldl_eq (vmAlloc : DomainEntity → ℕ) :
    ∀ (l : List DomainEntity) (n : ℤ),
      l.foldl (fun acc c => acc + (vmAlloc c : ℤ)) n
        = n + (l.map (fun c => (vmAlloc c : ℤ))).sum := by
  intro l
  induction l with
  | nil => intro n; simp
  | cons a l ih =>
    intro n
    simp only [List.foldl_cons, List.map_cons, List.sum_cons]
    rw [ih]
    ring

/-- `Subset.get_allocation` computes the sum of the consumers'
allocations. -/
theorem getAllocation_eq_sum (vmAlloc : DomainEntity → ℕ)
    (consumers : List DomainEntity) :
    getAllocation vmAlloc consumers
      = (consumers.map (fun c => (vmAlloc c : ℤ))).sum := by
  unfold getAllocation
  rw [getAllocation_foldl_eq]
  ring

/-- The left fold with the if-step of `get_max_consumer_allocation` is the
left fold of `max` over the mapped allocations. -/
theorem getMaxConsumerAllocation_foldl_eq (vmAlloc : DomainEntity → ℕ) :
    ∀ (l : List DomainEntity) (n : ℤ),
      l.foldl (fun m c => if m < (vmAlloc c : ℤ) then (vmAlloc c : ℤ) else m) n
        = (l.map (fun c => (vmAlloc c : ℤ))).foldl max n := by
  intro l
  induction l with
  | nil => intro n; simp
  | cons a l ih =>
    intro n
    simp only [List.foldl_cons, List.map_cons]
    rw [ih]
    congr 1
    omega

/-- `Subset.get_max_consumer_allocation` computes the maximum consumer
allocation (0 when there is no consumer). -/
theorem getMaxConsumerAllocation_eq (vmAlloc : DomainEntity → ℕ)
    (consumers : List DomainEntity) :
    getMaxConsumerAllocation vmAlloc consumers
      = (consumers.map (fun c => (vmAlloc c : ℤ))).foldl max 0 := by
  unfold getMaxConsumerAllocation
  rw [getMaxConsumerAllocation_foldl_eq]

/-- Closed form of `get_available`: shared helper behind C1 and C4. -/
theorem getAvailable_closed (ratio : ℚ) (criticalSize capacity : ℤ)
    (vmAlloc : DomainEntity → ℕ) (consumers : List DomainEntity)
    (withNewVm : Bool) :
    getAvailable ratio criticalSize capacity vmAlloc consumers withNewVm
      = (capacity : ℚ) *
          (if ((consumers.length : ℤ) + (if withNewVm then 1 else 0)) < criticalSize
            then 1 else ratio)
        - (((consumers.map (fun c => (vmAlloc c : ℤ))).sum : ℤ) : ℚ) := by
  unfold getAvailable getOversubscribedQuantity getEffectiveRatio
  rw [getAllocation_eq_sum]
  cases withNewVm <;> simp

/-! ## C1 -/

/-- C1: for a static-oversubscription subset, `get_available` returns
`C * r_eff - A` where `C` is the capacity, `A` the sum of the consumers'
allocations, and `r_eff = 1.0` when the consumer count (plus one when
`with_new_vm`) is strictly below the critical size, else the ratio. -/
theorem c1_get_available_formula (ratio : ℚ) (criticalSize capacity : ℤ)
    (vmAlloc : DomainEntity → ℕ) (consumers : List DomainEntity)
    (withNewVm : Bool) :
    getAvailable ratio criticalSize capacity vmAlloc consumers withNewVm
      = (capacity : ℚ) *
          (if ((consumers.length : ℤ) + (if withNewVm then 1 else 0)) < criticalSize
            then 1 else ratio)
        - (((consumers.map (fun c => (vmAlloc c : ℤ))).sum : ℤ) : ℚ) :=
  getAvailable_closed ratio criticalSize capacity vmAlloc consumers withNewVm

/-! ## C9 -/

/-- C9: two `DomainEntity` values whose uuids are both `None` compare equal
under `DomainEntity.__eq__` even when their names, vCPU counts and memory
sizes all differ, so equality-based membership tests treat any two
undeployed VMs as the same consumer. -/
theorem c9_undeployed_vms_equal (a b : DomainEntity)
    (ha : a.uuid = none) (hb : b.uuid = none)
    (hn : a.name ≠ b.name) (hc : a.cpu ≠ b.cpu) (hm : a.mem ≠ b.mem) :
    DomainEntity.pyEq a b = true ∧ pyElem b [a] = true := by
  constructor
  · unfold DomainEntity.pyEq
    rw [ha, hb]
    simp
  · unfold pyElem
    simp only [List.any_cons, List.any_nil, Bool.or_false]
    unfold DomainEntity.pyEq
    rw [ha, hb]
    simp

/-- Witness for C9 at concrete undeployed VMs with different names, vCPU
counts and memory sizes. -/
theorem c9_witness :
    DomainEntity.pyEq vmA vmB = true ∧ pyElem vmB [vmA] = true :=
  c9_undeployed_vms_equal vmA vmB rfl rfl (by decide) (by decide) (by decide)

/-! ## C6 -/

/-- C6: with `p = ceil(observed_peak)` and `1 ≤ p ≤ N`, the generated
cost-sensitive label list assigns cost `c - p` to every class `c ≥ p` and
cost `(N - p) + (p - c)` to every class `c < p`, and every
underprovisioning class has a strictly greater cost than every
overprovisioning class. -/
theorem c6_cost_schedule (resourcesCount : ℤ) (observedPeak : ℚ)
    (h1 : 1 ≤ ⌈observedPeak⌉) (h2 : ⌈observedPeak⌉ ≤ resourcesCount) :
    generateLabelsWithCosts resourcesCount observedPeak
      = (List.range resourcesCount.toNat).map (fun i =>
          ((i : ℤ) + 1, specCostSchedule resourcesCount ⌈observedPeak⌉ ((i : ℤ) + 1))) ∧
    ∀ c1 c2 : ℤ, 1 ≤ c1 → c1 < ⌈observedPeak⌉ →
      ⌈observedPeak⌉ ≤ c2 → c2 ≤ resourcesCount →
      specCostSchedule resourcesCount ⌈observedPeak⌉ c2
        < specCostSchedule resourcesCount ⌈observedPeak⌉ c1 := by
  constructor
  · unfold generateLabelsWithCosts specCostSchedule
    apply List.map_congr_left
    intro i _
    dsimp only
    by_cases hlt : (i : ℤ) + 1 < ⌈observedPeak⌉
    · rw [if_pos hlt, if_pos hlt, abs_of_neg (by omega : (i : ℤ) + 1 - ⌈observedPeak⌉ < 0)]
      ring_nf
    · rw [if_neg hlt, if_neg hlt, abs_of_nonneg (by omega : (0:ℤ) ≤ (i : ℤ) + 1 - ⌈observedPeak⌉)]
  · intro c1 c2 hc1 hc1p hpc2 hc2
    unfold specCostSchedule
    rw [if_pos (by omega : c1 < ⌈observedPeak⌉), if_neg (by omega : ¬ c2 < ⌈observedPeak⌉)]
    omega

/-- Witness for C6 at `N = 4`, `observed_peak = 3.0` (so `p = 3`): the label
list agrees with the spec schedule, and the underprovisioning class 2 costs
more than the overprovisioning class 4. -/
theorem c6_witness :
    generateLabelsWithCosts 4 3
      = (List.range (4:ℤ).toNat).map (fun i =>
          ((i : ℤ) + 1, specCostSchedule 4 ⌈(3 : ℚ)⌉ ((i : ℤ) + 1))) ∧
    specCostSchedule 4 ⌈(3 : ℚ)⌉ 4 < specCostSchedule 4 ⌈(3 : ℚ)⌉ 2 := by
  have hceil : ⌈(3 : ℚ)⌉ = 3 := by norm_num
  have h := c6_cost_schedule 4 3 (by rw [hceil]; norm_num) (by rw [hceil]; norm_num)
  exact ⟨h.1, h.2 2 4 (by norm_num) (by rw [hceil]; norm_num) (by rw [hceil]; norm_num) (by norm_num)⟩

/-! ## C4 -/

/-- C4: `unused_resources_count` returns `u = floor((C*r_eff - A)/r_eff)`,
except that when `C - u` would fall below the largest single consumer's
allocation `m` the result is clamped to `max(0, floor(C - m))`. -/
theorem c4_unused_resources (ratio : ℚ) (criticalSize capacity : ℤ)
    (vmAlloc : DomainEntity → ℕ) (consumers : List DomainEntity)
    (hr : 0 < ratio) :
    unusedResourcesCount ratio criticalSize capacity vmAlloc consumers
      = Except.ok (
          let reff : ℚ := if (consumers.length : ℤ) < criticalSize then 1 else ratio
          let allocSum : ℤ := (consumers.map (fun c => (vmAlloc c : ℤ))).sum
          let maxAlloc : ℤ := (consumers.map (fun c => (vmAlloc c : ℤ))).foldl max 0
          let u : ℤ := ⌊((capacity : ℚ) * reff - (allocSum : ℚ)) / reff⌋
          if capacity - u < maxAlloc then max 0 ⌊(capacity : ℚ) - (maxAlloc : ℚ)⌋
          else u) := by
  have hek : getEffectiveRatio ratio criticalSize (consumers.length : ℤ) false
      = (if (consumers.length : ℤ) < criticalSize then (1:ℚ) else ratio) := by
    unfold getEffectiveRatio
    simp
  have hne : ¬ getEffectiveRatio ratio criticalSize (consumers.length : ℤ) false = 0 := by
    rw [hek]
    split_ifs
    · norm_num
    · exact ne_of_gt hr
  unfold unusedResourcesCount
  rw [if_neg hne]
  rw [getAvailable_closed, getMaxConsumerAllocation_eq, hek]
  simp
  split_ifs <;> rfl

/-- Witness for C4: capacity 10, ratio 2, critical size 1, one consumer of
allocation 2; then `r_eff = 2`, `u = floor(18/2) = 9`, `C - u = 1 < 2 = m`,
so the clamped value `max(0, floor(10 - 2)) = 8` is returned. -/
theorem c4_witness :
    unusedResourcesCount 2 1 10 (fun v => v.cpu) [vmB] = Except.ok 8 := by
  rw [c4_unused_resources 2 1 10 (fun v => v.cpu) [vmB] (by norm_num)]
  norm_num [vmB]

/-! ## C2 -/

/-- C2 (amended): `Subset.deploy` returns `False` and leaves the consumer
list unchanged when the VM's allocation exceeds the available virtual
capacity computed with the candidate VM counted; otherwise, provided the VM
is not already a consumer under `DomainEntity` equality, it appends the VM
and returns `True` — and when the VM is already a consumer it raises
`ValueError` from `add_consumer` instead. -/
theorem c2_deploy_amended (ratio : ℚ) (criticalSize capacity : ℤ)
    (vmAlloc : DomainEntity → ℕ) (consumers : List DomainEntity)
    (vm : DomainEntity) :
    (getAvailable ratio criticalSize capacity vmAlloc consumers true < (vmAlloc vm : ℚ) →
      subsetDeploy ratio criticalSize capacity vmAlloc consumers vm
        = Except.ok (consumers, false)) ∧
    (¬ getAvailable ratio criticalSize capacity vmAlloc consumers true < (vmAlloc vm : ℚ) →
      pyElem vm consumers = false →
      subsetDeploy ratio criticalSize capacity vmAlloc consumers vm
        = Except.ok (consumers ++ [vm], true)) ∧
    (¬ getAvailable ratio criticalSize capacity vmAlloc consumers true < (vmAlloc vm : ℚ) →
      pyElem vm consumers = true →
      subsetDeploy ratio criticalSize capacity vmAlloc consumers vm
        = Except.error PyError.valueError) := by
  refine ⟨?_, ?_, ?_⟩
  · intro h
    unfold subsetDeploy
    rw [if_pos h]
  · intro h hmem
    unfold subsetDeploy addConsumer
    rw [if_neg h, hmem]
    simp
  · intro h hmem
    unfold subsetDeploy addConsumer
    rw [if_neg h, hmem]
    simp

/-- Counterexample for C2 as stated: deploying the undeployed VM `vmB` on a
subset already holding the undeployed VM `vmA` (capacity 10, ratio 2,
critical size 5).  The available virtual capacity (9) is not exceeded by
the request (2), yet `deploy` raises `ValueError` (because
`DomainEntity.__eq__` makes `vmB` equal to `vmA`, both uuids being `None`)
instead of appending `vmB` and returning `True`. -/
theorem c2_counterexample :
    ¬ (getAvailable 2 5 10 (fun v => v.cpu) [vmA] true < ((vmB.cpu : ℕ) : ℚ)) ∧
    subsetDeploy 2 5 10 (fun v => v.cpu) [vmA] vmB = Except.error PyError.valueError := by
  constructor
  · rw [getAvailable_closed]
    norm_num [vmA, vmB]
  · unfold subsetDeploy addConsumer
    rw [if_neg ?hlt]
    case hlt =>
      rw [getAvailable_closed]
      norm_num [vmA, vmB]
    rw [show pyElem vmB [vmA] = true from rfl]
    simp

/-- Witness for C2 (amended), second branch: on an empty subset with enough
capacity the deploy appends the VM and returns `True`. -/
theorem c2_witness :
    subsetDeploy 2 5 10 (fun v => v.cpu) [] vmA = Except.ok ([vmA], true) :=
  (c2_deploy_amended 2 5 10 (fun v => v.cpu) [] vmA).2.1
    (by rw [getAvailable_closed]; norm_num [vmA]) rfl

/-! ## C8 -/

/-- C8: `SubsetManagerPool.list_vm` is intended to return the names of all
hosted VMs by concatenating the consumers of the CPU manager's collection of
every NUMA node, but as written it subscripts the bound method
`consumers.extend` and raises `TypeError` on any pool with at least one NUMA
node; shown here on a pool with NUMA node 0 hosting the VM named `a`,
where the intended semantics yields that name. -/
theorem c8_list_vm_bug :
    poolListVm { numaIdList := [0], collections := fun _ => [(1, [vmA])] }
      = Except.error PyError.typeError ∧
    poolListVmIntended { numaIdList := [0], collections := fun _ => [(1, [vmA])] }
      = ["a"] := by
  constructor
  · rfl
  · rfl

/-! ## C10 -/

/-- C10: `CpuSubset.deploy` performs its side effects unconditionally: when
the capacity check fails it still returns `False`, but the returned state
has the pin template recomputed and applied to every already-present
consumer (no consumer was added: the names are unchanged), the CPU-time
counters of every physical core cleared, and the hypervisor pin-update
events emitted for every deployed consumer (when not offline). -/
theorem c10_rejected_deploy_side_effects (s : CpuSubsetSt) (vm : DomainEntity)
    (hrej : getAvailable s.ratio s.criticalSize (s.resList.length : ℤ)
        (fun v => v.cpu) s.consumerList true < (vm.cpu : ℚ))
    (hids : ∀ r ∈ s.resList, r.cpuId < s.cpuCount) :
    ∃ templatePin s' events,
      buildCpuPinning (s.resList.map (fun r => r.cpuId)) s.cpuCount
        = Except.ok templatePin ∧
      cpuSubsetDeploy s vm = Except.ok (s', false, events) ∧
      (∀ c ∈ s'.consumerList, c.cpuPin = some (List.replicate c.cpu templatePin)) ∧
      s'.consumerList.map (fun c => c.name) = s.consumerList.map (fun c => c.name) ∧
      (∀ r ∈ s'.resList, r.idleNotIdle = none) ∧
      events = (if s.offline then []
        else (s.consumerList.filter (fun c => c.isDeployed)).map (fun c => c.name)) := by
  have hall : ((s.resList.map (fun r => r.cpuId)).all fun c => c < s.cpuCount) = true := by
    rw [List.all_eq_true]
    intro c hc
    rw [List.mem_map] at hc
    obtain ⟨r, hr, rfl⟩ := hc
    simpa using hids r hr
  have hbuild : buildCpuPinning (s.resList.map (fun r => r.cpuId)) s.cpuCount
      = Except.ok ((s.resList.map (fun r => r.cpuId)).foldl
          (fun t c => t.set c true) (List.replicate s.cpuCount false)) := by
    unfold buildCpuPinning
    rw [if_pos hall]
  have hdeploy : subsetDeploy s.ratio s.criticalSize (s.resList.length : ℤ)
      (fun v => v.cpu) s.consumerList vm = Except.ok (s.consumerList, false) := by
    unfold subsetDeploy
    rw [if_pos hrej]
  set tpl : List Bool := (s.resList.map (fun r => r.cpuId)).foldl
    (fun t c => t.set c true) (List.replicate s.cpuCount false) with htpl
  refine ⟨tpl,
    clearTimes { s with consumerList := s.consumerList.map (fun c => c.setCpuPin tpl) },
    (if s.offline then []
      else ((s.consumerList.map (fun c => c.setCpuPin tpl)).filter
        (fun c => c.isDeployed)).map (fun c => c.name)),
    hbuild, ?_, ?_, ?_, ?_, ?_⟩
  · unfold cpuSubsetDeploy
    rw [hdeploy]
    show (match syncPinning { s with consumerList := s.consumerList } with
      | Except.error e => Except.error e
      | Except.ok (s2, events) => Except.ok (clearTimes s2, false, events)) = _
    unfold syncPinning
    dsimp only
    rw [hbuild]
  · intro c hc
    simp only [clearTimes, List.mem_map] at hc
    obtain ⟨x, hx, rfl⟩ := hc
    rfl
  · simp only [clearTimes, List.map_map]
    rfl
  · intro r hr
    simp only [clearTimes, List.mem_map] at hr
    obtain ⟨x, hx, rfl⟩ := hr
    rfl
  · by_cases hoff : s.offline = true
    · rw [if_pos hoff, if_pos hoff]
    · rw [if_neg hoff, if_neg hoff]
      rw [List.filter_map, List.map_map]
      rfl

/-- Witness for C10: a one-core online subset holding the deployed 2-vCPU VM
`d` rejects a further 2-vCPU VM, yet re-pins and clears counters. -/
theorem c10_witness :
    ∃ templatePin s' events,
      buildCpuPinning (subC10.resList.map (fun r => r.cpuId)) subC10.cpuCount
        = Except.ok templatePin ∧
      cpuSubsetDeploy subC10 vmB = Except.ok (s', false, events) ∧
      (∀ c ∈ s'.consumerList, c.cpuPin = some (List.replicate c.cpu templatePin)) ∧
      s'.consumerList.map (fun c => c.name) = subC10.consumerList.map (fun c => c.name) ∧
      (∀ r ∈ s'.resList, r.idleNotIdle = none) ∧
      events = (if subC10.offline then []
        else (subC10.consumerList.filter (fun c => c.isDeployed)).map (fun c => c.name)) :=
  c10_rejected_deploy_side_effects subC10 vmB
    (by rw [getAvailable_closed]; norm_num [subC10, vmB])
    (by decide)

/-! ## C7 -/

/-- After any `predict` call, the stored last prediction is the value that
was just returned. -/
theorem predictStep_lastPrediction {μ : Type} (oracle : μ → ℤ → ℤ → List ℚ → ℚ × μ)
    (ml : ℤ) (st : PredictorSt μ) (t cr alloc : ℤ) (metric : ℚ) :
    (predictStep oracle ml st t cr alloc metric).2.lastPrediction
      = some (predictStep oracle ml st t cr alloc metric).1 := by
  unfold predictStep
  cases st.lastPrediction with
  | none => rfl
  | some lp =>
    dsimp only
    split_ifs <;> rfl

/-- C7 (amended): two consecutive `predict` calls with identical arguments
(and hence no elapsed time) return the same value, provided the second call
does not retrain (the time since the buffer start stays below
`monitoring_learning`) and the safeguard cannot change the value (either
`ceil(metric)` is below the first result, or the first result already equals
`current_resources`). -/
theorem c7_predict_consecutive (μ : Type) (oracle : μ → ℤ → ℤ → List ℚ → ℚ × μ)
    (ml : ℤ) (st : PredictorSt μ) (t cr alloc : ℤ) (metric : ℚ)
    (hsafe : ⌈metric⌉ < (predictStep oracle ml st t cr alloc metric).1
      ∨ (predictStep oracle ml st t cr alloc metric).1 = cr)
    (hlearn : t - (((predictStep oracle ml st t cr alloc metric).2.bufferTimestamp).getD t) < ml) :
    (predictStep oracle ml (predictStep oracle ml st t cr alloc metric).2 t cr alloc metric).1
      = (predictStep oracle ml st t cr alloc metric).1 := by
  set p1 := (predictStep oracle ml st t cr alloc metric).1 with hp1
  set st1 := (predictStep oracle ml st t cr alloc metric).2 with hst1
  have hlp : st1.lastPrediction = some p1 :=
    predictStep_lastPrediction oracle ml st t cr alloc metric
  unfold predictStep
  rw [hlp]
  dsimp only
  by_cases hsg : 0 < cr ∧ p1 ≤ ⌈metric⌉
  · rw [if_pos hsg]
    rcases hsafe with h | h
    · exact absurd hsg.2 (by omega)
    · rw [h]
      rw [if_pos (by omega : cr < cr + 5)]
  · rw [if_neg hsg]
    rw [if_neg (by omega : ¬ ml ≤ t - st1.bufferTimestamp.getD t)]

/-- Counterexample for C7 as stated: from the state `predStA` (last
prediction 2, buffer started at timestamp 100), two consecutive calls with
the identical arguments `(timestamp=100, current_resources=100,
allocation=0, metric=50)` return 7 and then 12 — the safeguard fires on
both calls and advances the prediction by 5 each time. -/
theorem c7_counterexample :
    (predictStep zeroOracle 10 predStA 100 100 0 50).1 = 7 ∧
    (predictStep zeroOracle 10
        (predictStep zeroOracle 10 predStA 100 100 0 50).2 100 100 0 50).1 = 12 := by
  constructor
  · decide
  · decide

/-- Witness for C7 (amended) on a fresh predictor at
`(timestamp=0, current_resources=4, allocation=0, metric=2)`: the first call
returns `current_resources = 4`, and the second identical call returns the
same value. -/
theorem c7_witness :
    (⌈(2:ℚ)⌉ < (predictStep zeroOracle 10 predStFresh 0 4 0 2).1
      ∨ (predictStep zeroOracle 10 predStFresh 0 4 0 2).1 = 4) ∧
    0 - (((predictStep zeroOracle 10 predStFresh 0 4 0 2).2.bufferTimestamp).getD 0) < 10 ∧
    (predictStep zeroOracle 10
        (predictStep zeroOracle 10 predStFresh 0 4 0 2).2 0 4 0 2).1
      = (predictStep zeroOracle 10 predStFresh 0 4 0 2).1 :=
  ⟨Or.inr (by decide), by decide,
    c7_predict_consecutive Unit zeroOracle 10 predStFresh 0 4 0 2
      (Or.inr (by decide)) (by decide)⟩

/-! ## C5 -/

/-- Lookup in a dict with distinct keys finds the entry at any position. -/
theorem dictLookup_of_nodup (l : List (ℕ × ℕ)) (hnd : (l.map Prod.fst).Nodup) :
    ∀ (i : ℕ) (p : ℕ × ℕ), l[i]? = some p → dictLookup l p.1 = some p.2 := by
  induction l with
  | nil => intro i p h; simp at h
  | cons a l ih =>
    intro i p h
    rw [List.map_cons] at hnd
    obtain ⟨hna, hnl⟩ := List.nodup_cons.mp hnd
    cases i with
    | zero =>
      simp only [List.getElem?_cons_zero, Option.some.injEq] at h
      subst h
      unfold dictLookup
      rw [List.find?_cons_of_pos _ (by simp)]
      rfl
    | succ i =>
      have hmem : p ∈ l := by
        have hi := h
        simp only [List.getElem?_cons_succ] at hi
        exact List.getElem?_mem hi
      have hkey : ¬ (a.1 = p.1) := by
        intro he
        exact hna (he ▸ List.mem_map.mpr ⟨p, hmem, rfl⟩)
      unfold dictLookup
      rw [List.find?_cons_of_neg _ (by simpa using hkey)]
      have hrec := ih hnl i p (by simpa using h)
      simpa [dictLookup] using hrec

/-- The cache-walk loop of `compute_distance_to_cpu`, characterized against
the first shared cache level of the zipped hierarchies: provided the lookup
of each of `self`'s keys in the other cpu's dict yields the other's cache id
at the same position, the loop returns `d + 10*(k+1)` at the first shared
position `k`, and `d + 10*L + numa` when no position shares an id. -/
theorem computeDistanceGo_eq (b : ServerCpu) (numaDistance : ℕ → ℕ → ℤ)
    (selfNuma : ℕ) :
    ∀ (la lb : List (ℕ × ℕ)) (d : ℤ), la.length = lb.length →
    (∀ pab ∈ la.zip lb, dictLookup b.cacheLevel pab.1.1 = some pab.2.2) →
    computeDistanceGo b numaDistance selfNuma la d =
      Except.ok (match firstSharedLevel (la.zip lb) with
        | some i => d + 10 * ((i : ℤ) + 1)
        | none => d + 10 * (la.length : ℤ) + numaDistance selfNuma b.numaNode) := by
  intro la
  induction la with
  | nil =>
    intro lb d _hlen _hlk
    simp [computeDistanceGo, firstSharedLevel]
  | cons hd tl ih =>
    intro lb d hlen hlk
    cases lb with
    | nil => simp at hlen
    | cons hb tb =>
      obtain ⟨k, cid⟩ := hd
      have hhd : dictLookup b.cacheLevel k = some hb.2 := by
        have := hlk ((k, cid), hb) (by rw [List.zip_cons_cons]; exact List.mem_cons_self _ _)
        exact this
      rw [List.zip_cons_cons]
      simp only [computeDistanceGo]
      rw [hhd]
      dsimp only
      have hfs : firstSharedLevel (((k, cid), hb) :: tl.zip tb)
          = if cid = hb.2 then some 0
            else (firstSharedLevel (tl.zip tb)).map (fun i => i + 1) := rfl
      by_cases hc : cid = hb.2
      · rw [if_pos hc, hfs, if_pos hc]
        norm_num
      · rw [if_neg hc, hfs, if_neg hc]
        rw [ih tb (d + 10) (by simpa using hlen)
          (fun pab hm => hlk pab (by rw [List.zip_cons_cons]; exact List.mem_cons_of_mem _ hm))]
        cases hfs2 : firstSharedLevel (tl.zip tb) with
        | none =>
          simp only [Option.map_none', List.length_cons]
          congr 1
          push_cast
          ring
        | some i =>
          simp only [Option.map_some', List.length_cons]
          congr 1
          push_cast
          ring

/-- Membership in a `sortedInsert` result. -/
theorem mem_sortedInsert (x y : ℕ × ℤ) :
    ∀ l : List (ℕ × ℤ), y ∈ sortedInsert x l ↔ y = x ∨ y ∈ l := by
  intro l
  induction l with
  | nil => simp [sortedInsert]
  | cons a l ih =>
    unfold sortedInsert
    by_cases h : a.2 ≤ x.2
    · rw [if_pos h]
      simp only [List.mem_cons, ih]
      tauto
    · rw [if_neg h]
      simp only [List.mem_cons]

/-- Stable insertion preserves sortedness by value. -/
theorem sortedInsert_pairwise (x : ℕ × ℤ) :
    ∀ l : List (ℕ × ℤ), l.Pairwise (fun p q : ℕ × ℤ => p.2 ≤ q.2) →
      (sortedInsert x l).Pairwise (fun p q : ℕ × ℤ => p.2 ≤ q.2) := by
  intro l
  induction l with
  | nil => intro _; simp [sortedInsert]
  | cons a l ih =>
    intro hl
    obtain ⟨ha, hl'⟩ := List.pairwise_cons.mp hl
    unfold sortedInsert
    by_cases h : a.2 ≤ x.2
    · rw [if_pos h]
      refine List.pairwise_cons.mpr ⟨?_, ih hl'⟩
      intro y hy
      rcases (mem_sortedInsert x y l).mp hy with rfl | hy'
      · exact h
      · exact ha y hy'
    · rw [if_neg h]
      refine List.pairwise_cons.mpr ⟨?_, hl⟩
      intro y hy
      rcases List.mem_cons.mp hy with rfl | hy'
      · omega
      · have := ha y hy'
        omega

/-- The result of `sortByValue` is sorted ascending by value. -/
theorem sortByValue_pairwise (l : List (ℕ × ℤ)) :
    (sortByValue l).Pairwise (fun p q : ℕ × ℤ => p.2 ≤ q.2) := by
  suffices h : ∀ acc : List (ℕ × ℤ), acc.Pairwise (fun p q : ℕ × ℤ => p.2 ≤ q.2) →
      (l.foldl (fun acc x => sortedInsert x acc) acc).Pairwise
        (fun p q : ℕ × ℤ => p.2 ≤ q.2) by
    exact h [] (by simp)
  induction l with
  | nil => intro acc hacc; simpa using hacc
  | cons a l ih =>
    intro acc hacc
    simp only [List.foldl_cons]
    exact ih (sortedInsert a acc) (sortedInsert_pairwise a acc hacc)

/-- Every element of a successful `mapE` run comes from applying the body to
some element of the input list. -/
theorem mapE_ok_mem {α β : Type} (f : α → Except PyError β) :
    ∀ (l : List α) (res : List β), mapE f l = Except.ok res →
      ∀ y ∈ res, ∃ x ∈ l, f x = Except.ok y := by
  intro l
  induction l with
  | nil =>
    intro res h y hy
    simp only [mapE, Except.ok.injEq] at h
    subst h
    simp at hy
  | cons a l ih =>
    intro res h y hy
    unfold mapE at h
    cases hfa : f a with
    | error e => rw [hfa] at h; simp at h
    | ok b =>
      rw [hfa] at h
      cases hml : mapE f l with
      | error e => rw [hml] at h; simp at h
      | ok bs =>
        rw [hml] at h
        simp only [Except.ok.injEq] at h
        subst h
        rcases List.mem_cons.mp hy with rfl | hy'
        · exact ⟨a, List.mem_cons_self _ _, hfa⟩
        · obtain ⟨x, hx, hfx⟩ := ih bs hml y hy'
          exact ⟨x, List.mem_cons_of_mem _ hx, hfx⟩

/-- C5 (amended): for two distinct admitted cores whose cache hierarchies
have the same key sequence (hence the same depth `L`, the keys being the
distinct keys of a dict), `compute_distance_to_cpu` returns `10*k` where `k`
is the 1-based position of the first cache level at which the two cores
share a cache id, and `10*L + numa[a][b]` when no level matches; and
`build_distances` orders every core's distance mapping ascending by
distance (nearest first). -/
theorem c5_distance_and_order :
    (∀ (a b : ServerCpu) (numaDistance : ℕ → ℕ → ℤ),
      a.cpuId ≠ b.cpuId →
      a.cacheLevel.map Prod.fst = b.cacheLevel.map Prod.fst →
      (b.cacheLevel.map Prod.fst).Nodup →
      computeDistanceToCpu a b numaDistance
        = Except.ok (match firstSharedLevel (a.cacheLevel.zip b.cacheLevel) with
            | some i => 10 * ((i : ℤ) + 1)
            | none => 10 * (a.cacheLevel.length : ℤ)
                + numaDistance a.numaNode b.numaNode)) ∧
    (∀ (cpuList : List ServerCpu) (numaDistance : ℕ → ℕ → ℤ)
        (res : List (ℕ × List (ℕ × ℤ))),
      buildDistances cpuList numaDistance = Except.ok res →
      ∀ p ∈ res, p.2.Pairwise (fun x y : ℕ × ℤ => x.2 ≤ y.2)) := by
  constructor
  · intro a b numaDistance hne hkeys hnd
    have hlen : a.cacheLevel.length = b.cacheLevel.length := by
      have hc := congrArg List.length hkeys
      simpa using hc
    have hlk : ∀ pab ∈ a.cacheLevel.zip b.cacheLevel,
        dictLookup b.cacheLevel pab.1.1 = some pab.2.2 := by
      intro pab hm
      obtain ⟨i, hi⟩ := List.getElem?_of_mem hm
      rw [List.getElem?_zip_eq_some] at hi
      obtain ⟨h1, h2⟩ := hi
      have hkeq : pab.1.1 = pab.2.1 := by
        have hma := congrArg (fun l => l[i]?) hkeys
        simp only [List.getElem?_map, h1, h2, Option.map_some'] at hma
        simpa using hma
      rw [hkeq]
      exact dictLookup_of_nodup b.cacheLevel hnd i pab.2 h2
    unfold computeDistanceToCpu
    rw [if_neg hne, if_neg (by omega : ¬ a.cacheLevel.length ≠ b.cacheLevel.length)]
    rw [computeDistanceGo_eq b numaDistance a.numaNode a.cacheLevel b.cacheLevel 0 hlen hlk]
    cases hfs : firstSharedLevel (a.cacheLevel.zip b.cacheLevel) with
    | none => congr 1; ring
    | some i => congr 1; ring
  · intro cpuList numaDistance res h p hp
    obtain ⟨cpu, hcpu, hf⟩ := mapE_ok_mem _ cpuList res h p hp
    cases hbf : buildDistancesFor cpuList numaDistance cpu with
    | error e => rw [hbf] at hf; simp [Except.map] at hf
    | ok l =>
      rw [hbf] at hf
      simp only [Except.map, Except.ok.injEq] at hf
      unfold buildDistancesFor at hbf
      cases hm2 : mapE (fun o =>
          (computeDistanceToCpu cpu o numaDistance).map (fun d => (o.cpuId, d)))
          (cpuList.erase cpu) with
      | error e => rw [hm2] at hbf; simp at hbf
      | ok l' =>
        rw [hm2] at hbf
        simp only [Except.ok.injEq] at hbf
        have hp2 : p.2 = sortByValue l' := by
          rw [← hf, hbf]
        rw [hp2]
        exact sortByValue_pairwise l'

/-- Counterexample for C5 as stated: `cpuV` and `cpuW` are distinct cores
whose cache hierarchies have the same depth 1 and share no cache id, so the
claim predicts `10*1 + numa[a][b] = 52`; but `compute_distance_to_cpu`
raises `KeyError` instead, because `cpuW`'s cache dict lacks `cpuV`'s cache
level key 1. -/
theorem c5_counterexample :
    cpuV.cacheLevel.length = cpuW.cacheLevel.length ∧
    cpuV.cpuId ≠ cpuW.cpuId ∧
    computeDistanceToCpu cpuV cpuW (fun _ _ => 42) = Except.error PyError.keyError := by
  refine ⟨rfl, by decide, rfl⟩

/-- Witness for C5 (amended): `cpuX` and `cpuY` share their level-2 cache
(position 2), so the distance is 20; and the distance mappings built for
the pair `[cpuX, cpuY]` are sorted ascending. -/
theorem c5_witness :
    computeDistanceToCpu cpuX cpuY (fun _ _ => 42) = Except.ok 20 ∧
    (∀ p ∈ [((0:ℕ), [((1:ℕ), (20:ℤ))]), (1, [(0, 20)])],
      p.2.Pairwise (fun x y : ℕ × ℤ => x.2 ≤ y.2)) := by
  constructor
  · rw [c5_distance_and_order.1 cpuX cpuY (fun _ _ => 42) (by decide) (by decide) (by decide)]
    rfl
  · exact c5_distance_and_order.2 [cpuX, cpuY] (fun _ _ => 42)
      [((0:ℕ), [((1:ℕ), (20:ℤ))]), (1, [(0, 20)])] rfl

/-! ## C3 -/

/-- When every manager accepts, the inner manager loop of the pool deploy
returns success with reason `None` and the state of all deploys applied in
order. -/
theorem tryManagersGo_all_ok {σ : Type} (numa : ℤ) (vm : DomainEntity) :
    ∀ (mgrs treated : List (MgrModel σ)) (st : σ), seqAllOk numa vm mgrs st →
      tryManagersGo numa vm mgrs treated st
        = (true, none, seqDeployState mgrs numa vm st) := by
  intro mgrs
  induction mgrs with
  | nil => intro treated st _h; rfl
  | cons m rest ih =>
    intro treated st h
    simp only [seqAllOk] at h
    obtain ⟨h1, h2⟩ := h
    simp only [tryManagersGo]
    rw [if_pos h1]
    rw [ih (treated ++ [m]) (m.deployOn numa vm st).2 h2]
    rfl

/-- Unfolding: deploying through no manager leaves the state unchanged. -/
theorem seqDeployState_nil {σ : Type} (numa : ℤ) (vm : DomainEntity) (st : σ) :
    seqDeployState [] numa vm st = st := rfl

/-- Unfolding: deploying through `m :: mgrs` threads `m`'s state change. -/
theorem seqDeployState_cons {σ : Type} (m : MgrModel σ) (mgrs : List (MgrModel σ))
    (numa : ℤ) (vm : DomainEntity) (st : σ) :
    seqDeployState (m :: mgrs) numa vm st
      = seqDeployState mgrs numa vm (m.deployOn numa vm st).2 := rfl

/-- When the managers before `mfail` all accept and `mfail` rejects, the
inner manager loop stops at `mfail`, reports its resource in the reason,
and removes the vm from `treated` and the accepted prefix, in order, from
the state reached after the failing deploy. -/
theorem tryManagersGo_first_fail {σ : Type} (numa : ℤ) (vm : DomainEntity) :
    ∀ (pre : List (MgrModel σ)) (mfail : MgrModel σ)
      (post treated : List (MgrModel σ)) (st : σ),
      seqAllOk numa vm pre st →
      (mfail.deployOn numa vm (seqDeployState pre numa vm st)).1 = false →
      tryManagersGo numa vm (pre ++ mfail :: post) treated st
        = (false, some ("Not enough space on res " ++ mfail.resName),
            (treated ++ pre).foldl (fun s t => t.removeFrom numa vm s)
              ((mfail.deployOn numa vm (seqDeployState pre numa vm st)).2)) := by
  intro pre
  induction pre with
  | nil =>
    intro mfail post treated st _h hf
    rw [seqDeployState_nil] at hf
    simp only [List.nil_append, List.append_nil, seqDeployState_nil]
    simp only [tryManagersGo]
    rw [if_neg (by simp [hf])]
  | cons m pre ih =>
    intro mfail post treated st h hf
    simp only [seqAllOk] at h
    obtain ⟨h1, h2⟩ := h
    rw [seqDeployState_cons] at hf ⊢
    simp only [List.cons_append, tryManagersGo, List.append_eq]
    rw [if_pos h1]
    rw [ih mfail post (treated ++ [m]) (m.deployOn numa vm st).2 h2 hf]
    rw [List.append_assoc, List.singleton_append]

/-- The outer NUMA loop of the pool deploy never raises on a non-empty NUMA
id list. -/
theorem deployLoop_isOk {σ : Type} (mgrs : List (MgrModel σ)) (vm : DomainEntity) :
    ∀ (numaIds : List ℤ) (st : σ), numaIds ≠ [] →
      ∃ r, deployLoop mgrs vm numaIds st = Except.ok r := by
  intro numaIds
  induction numaIds with
  | nil => intro st h; exact absurd rfl h
  | cons n rest ih =>
    intro st _h
    unfold deployLoop
    by_cases hr : (tryNode mgrs n vm st).1 = true
    · rw [if_pos hr]
      exact ⟨_, rfl⟩
    · rw [if_neg hr]
      cases rest with
      | nil => exact ⟨_, rfl⟩
      | cons n2 rest2 => exact ih (tryNode mgrs n vm st).2.2 (by simp)

/-- The outer NUMA loop returns a failed placement exactly when every NUMA
node of the list fails its (state-threaded) attempt. -/
theorem deployLoop_false_iff {σ : Type} (mgrs : List (MgrModel σ)) (vm : DomainEntity) :
    ∀ (numaIds : List ℤ) (st : σ) (r : Bool × Option String × σ), numaIds ≠ [] →
      deployLoop mgrs vm numaIds st = Except.ok r →
      (r.1 = false ↔ allNodesFail mgrs vm numaIds st) := by
  intro numaIds
  induction numaIds with
  | nil => intro st r h _; exact absurd rfl h
  | cons n rest ih =>
    intro st r _h hok
    unfold deployLoop at hok
    by_cases hr : (tryNode mgrs n vm st).1 = true
    · rw [if_pos hr] at hok
      simp only [Except.ok.injEq] at hok
      subst hok
      simp [allNodesFail, hr]
    · rw [if_neg hr] at hok
      rw [Bool.not_eq_true] at hr
      cases rest with
      | nil =>
        simp only [Except.ok.injEq] at hok
        subst hok
        simp [allNodesFail, hr]
      | cons n2 rest2 =>
        have hrec := ih (tryNode mgrs n vm st).2.2 r (by simp) hok
        simp only [allNodesFail, hr, true_and]
        exact hrec

/-- C3 (amended): `SubsetManagerPool.deploy` tries NUMA nodes in order,
attempting the managers (CPU then memory) in sequence on each node.
(i) Whenever one manager fails on a node after a prefix of accepting
managers, the attempt for that node returns failure with that manager's
resource in the reason and the vm removed from every already-treated
manager, in order, before the next node is tried on the resulting state.
(ii) The placement loop reports failure exactly when every NUMA node has
failed.  (iii) A final `(False, reason)` is returned only when every NUMA
node has failed, or when placement succeeded but the hypervisor
`create_vm` failed for a not-yet-realized VM in online mode. -/
theorem c3_pool_deploy_discipline (σ : Type) :
    (∀ (numa : ℤ) (vm : DomainEntity) (pre : List (MgrModel σ)) (mfail : MgrModel σ)
        (post : List (MgrModel σ)) (st : σ),
      seqAllOk numa vm pre st →
      (mfail.deployOn numa vm (seqDeployState pre numa vm st)).1 = false →
      tryNode (pre ++ mfail :: post) numa vm st
        = (false, some ("Not enough space on res " ++ mfail.resName),
            pre.foldl (fun s t => t.removeFrom numa vm s)
              ((mfail.deployOn numa vm (seqDeployState pre numa vm st)).2))) ∧
    (∀ (mgrs : List (MgrModel σ)) (vm : DomainEntity) (numaIds : List ℤ) (st : σ)
        (r : Bool × Option String × σ),
      numaIds ≠ [] → deployLoop mgrs vm numaIds st = Except.ok r →
      (r.1 = false ↔ allNodesFail mgrs vm numaIds st)) ∧
    (∀ (mgrs : List (MgrModel σ)) (connCreate : DomainEntity → Bool × Option String)
        (vm : DomainEntity) (offline : Bool) (numaIds : List ℤ) (st : σ)
        (r : Bool × Option String × σ),
      numaIds ≠ [] → poolDeploy mgrs connCreate vm offline numaIds st = Except.ok r →
      r.1 = false →
      allNodesFail mgrs vm numaIds st
        ∨ ((connCreate vm).1 = false ∧ vm.isDeployed = false ∧ offline = false)) := by
  refine ⟨?_, ?_, ?_⟩
  · intro numa vm pre mfail post st h hf
    have hgo := tryManagersGo_first_fail numa vm pre mfail post [] st h hf
    rw [List.nil_append] at hgo
    exact hgo
  · exact fun mgrs vm numaIds st r => deployLoop_false_iff mgrs vm numaIds st r
  · intro mgrs connCreate vm offline numaIds st r hne hok hfail
    unfold poolDeploy at hok
    cases hdl : deployLoop mgrs vm numaIds st with
    | error e => rw [hdl] at hok; simp at hok
    | ok r' =>
      rw [hdl] at hok
      obtain ⟨success, reason, st'⟩ := r'
      dsimp only at hok
      by_cases hc : success = true ∧ ¬ vm.isDeployed = true ∧ ¬ offline = true
      · rw [if_pos hc] at hok
        simp only [Except.ok.injEq] at hok
        subst hok
        right
        refine ⟨hfail, ?_, ?_⟩
        · rw [← Bool.not_eq_true]
          exact hc.2.1
        · rw [← Bool.not_eq_true]
          exact hc.2.2
      · rw [if_neg hc] at hok
        simp only [Except.ok.injEq] at hok
        subst hok
        left
        exact (deployLoop_false_iff mgrs vm numaIds st (success, reason, st') hne hdl).mp hfail

/-- Counterexample for C3 as stated: on a pool whose two managers both
accept on NUMA node 0 (so the node succeeds), an online deploy of the
not-yet-realized VM `vmA` still returns `(False, reason)` because the
hypervisor `create_vm` fails — contradicting "(False, reason) is returned
only when every NUMA node has failed". -/
theorem c3_counterexample :
    (tryNode [mgrOkA, mgrOkB] 0 vmA (0 : ℕ)).1 = true ∧
    poolDeploy [mgrOkA, mgrOkB] (fun _ => (false, some "hypervisor failure"))
        vmA false [0] (0 : ℕ)
      = Except.ok (false, some "hypervisor failure", 2) := by
  constructor
  · rfl
  · rfl

/-- Witness for C3 (amended) on the toy pool state `ℕ`: the cpu manager
accepts, the mem manager rejects, so the node attempt fails with the mem
reason and rolls the cpu manager back; the one-node loop then reports
failure, which satisfies the all-nodes-failed characterization. -/
theorem c3_witness :
    (tryNode [mgrOkA, mgrFailB] 0 vmA (0 : ℕ)
      = (false, some "Not enough space on res mem", 108)) ∧
    (((false : Bool), (some "Not enough space on res mem" : Option String), (7 : ℕ)).1 = false
      ↔ allNodesFail [mgrFailB] vmA [0] (0 : ℕ)) ∧
    (allNodesFail [mgrFailB] vmA [0] (0 : ℕ)
      ∨ (((fun (_ : DomainEntity) => ((false : Bool), some "boom")) vmA).1 = false
          ∧ vmA.isDeployed = false ∧ false = false)) := by
  refine ⟨?_, ?_, ?_⟩
  · exact (c3_pool_deploy_discipline ℕ).1 0 vmA [mgrOkA] mgrFailB [] 0 ⟨rfl, trivial⟩ rfl
  · exact (c3_pool_deploy_discipline ℕ).2.1 [mgrFailB] vmA [0] 0
      (false, some "Not enough space on res mem", 7) (by simp) rfl
  · exact (c3_pool_deploy_discipline ℕ).2.2 [mgrFailB]
      (fun _ => (false, some "boom")) vmA false [0] 0
      (false, some "Not enough space on res mem", 7) (by simp) rfl rfl
